import Mathlib

/-!
Verification of the request-correlation and connection-lifecycle engine of
the browser MCP server (`src/ws-server.ts` and `src/context.ts`).

The WebSocket server keeps one mutable `connection` reference, a
`pendingRequests` map from message id to a pending entry, and reacts to
events (inbound connection, inbound message, socket close, send, timer
fire, shutdown).  We embed that state as `WSState` and each event handler
as a pure function `WSState → ... → WSState × List Event`, where `Event`
records the observable effects (promise resolutions/rejections, callbacks,
socket closes, log lines).  `context.ts` is layered on top as `CtxState`.
-/

namespace BrowserMCP

/-- Stand-in for the arbitrary (`unknown`) JSON payload/result values.
The core never inspects these values, it only carries and serializes them,
so we identify a value with its serialized form. -/
structure Json where
  raw : String
deriving DecidableEq

/-- The `error` field of an `ExtensionResponse` (types.ts). -/
structure ErrorInfo where
  code : String
  message : String
deriving DecidableEq

/-- `ExtensionMessage` (types.ts): the wire message sent to the extension. -/
structure ExtensionMessage where
  id : String
  type : String
  payload : Json
deriving DecidableEq

/-- `ExtensionResponse` (types.ts): a reply from the extension. -/
structure ExtensionResponse where
  id : String
  success : Bool
  result : Option Json
  error : Option ErrorInfo
deriving DecidableEq

/-- WebSocket `readyState` values. -/
inductive ReadyState where
  | CONNECTING
  | OPEN
  | CLOSING
  | CLOSED
deriving DecidableEq

/-- The errors with which a `send` promise can be rejected in ws-server.ts. -/
inductive SendError where
  | notConnected
  | timedOut (opType : String)
  | serverClosing
deriving DecidableEq

/-- One entry of the `pendingRequests` map: the key (message id), the
message type captured by the timeout closure, and the absolute time at
which the 30s timer fires. -/
structure PendingEntry where
  id : String
  opType : String
  deadline : Nat
deriving DecidableEq

/-- The mutable state owned by `createWSServer`, together with the state of
the client sockets it has seen (socket id paired with its readyState) and a
logical clock for the timers. -/
structure WSState where
  sockets : List (Nat × ReadyState)
  adopted : List Nat
  connection : Option Nat
  pending : List PendingEntry
  serverClosed : Bool
  now : Nat
deriving DecidableEq

/-- Observable effects of the handlers. -/
inductive Event where
  | resolveCall (id : String) (r : ExtensionResponse)
  | rejectCall (id : String) (e : SendError)
  | closeSocket (ws : Nat)
  | wireSend (ws : Nat) (m : ExtensionMessage)
  | onConnection (ws : Nat)
  | onDisconnection
  | onMessage (r : ExtensionResponse)
  | logUnmatched (id : String)
  | logParseError
deriving DecidableEq

/-- Inbound wire data: either data that parses as a Reply, or garbage. -/
inductive WireData where
  | reply (r : ExtensionResponse)
  | garbage (raw : String)
deriving DecidableEq

/-- `JSON.parse(data.toString()) as ExtensionResponse`, abstracted. -/
def parseMessage : WireData → Option ExtensionResponse
  | WireData.reply r => some r
  | WireData.garbage _ => none

/-- Look a socket up in the socket table. -/
def sockLookup : List (Nat × ReadyState) → Nat → Option ReadyState
  | [], _ => none
  | (k, v) :: rest, k' => if k' = k then some v else sockLookup rest k'

/-- Overwrite a socket's readyState (no-op when the socket is unknown). -/
def setSock (l : List (Nat × ReadyState)) (k : Nat) (v : ReadyState) :
    List (Nat × ReadyState) :=
  l.map (fun p => if p.1 = k then (k, v) else p)

/-- The ids currently present in the `pendingRequests` map. -/
def pendingIds (st : WSState) : List String :=
  st.pending.map PendingEntry.id

/-- `connection && connection.readyState === WebSocket.OPEN`. -/
def connOpen (st : WSState) : Bool :=
  match st.connection with
  | some ws => sockLookup st.sockets ws == some ReadyState.OPEN
  | none => false

/-- `pendingRequests.set(id, entry)` (Map semantics: replace or append). -/
def setPending (l : List PendingEntry) (e : PendingEntry) : List PendingEntry :=
  if l.any (fun x => x.id == e.id) then
    l.map (fun x => if x.id == e.id then e else x)
  else
    l ++ [e]

namespace WSServer

/-- The per-request timeout: `setTimeout(..., 30000)` in `send`. -/
def REQUEST_TIMEOUT_MS : Nat := 30000

/-- The grace window of the shutdown drain: `setTimeout(resolve, 5000)`. -/
def CLOSE_GRACE_MS : Nat := 5000

/-- The `server.on('connection')` handler (ws-server.ts lines 175-185):
if a connection is live and OPEN, close it, then adopt the new socket and
fire the `onConnection` callback. -/
def handleConnection (st : WSState) (ws : Nat) : WSState × List Event :=
  let closeOld : List (Nat × ReadyState) × List Event :=
    match st.connection with
    | some old =>
        if sockLookup st.sockets old = some ReadyState.OPEN then
          (setSock st.sockets old ReadyState.CLOSING, [Event.closeSocket old])
        else
          (st.sockets, [])
    | none => (st.sockets, [])
  ({ st with
      sockets := closeOld.1,
      adopted := ws :: st.adopted,
      connection := some ws },
   closeOld.2 ++ [Event.onConnection ws])

/-- The `ws.on('message')` handler (ws-server.ts lines 187-212): parse the
data; on failure log and drop; on success resolve and delete the matching
pending entry if `message.id` is truthy and present, else log as unmatched;
in both parse-success branches fire the `onMessage` callback. -/
def handleMessage (st : WSState) (data : WireData) : WSState × List Event :=
  match parseMessage data with
  | none => (st, [Event.logParseError])
  | some message =>
      if message.id ≠ "" ∧ message.id ∈ pendingIds st then
        ({ st with pending := st.pending.filter (fun e => e.id ≠ message.id) },
         [Event.resolveCall message.id message, Event.onMessage message])
      else
        (st, [Event.logUnmatched message.id, Event.onMessage message])

/-- The `ws.on('close')` handler (ws-server.ts lines 214-220): the socket
is now closed; clear the connection reference only when the closing socket
is the current one; fire the `onDisconnection` callback unconditionally. -/
def handleSocketClose (st : WSState) (ws : Nat) : WSState × List Event :=
  let st1 := { st with sockets := setSock st.sockets ws ReadyState.CLOSED }
  let st2 :=
    if st1.connection = some ws then { st1 with connection := none } else st1
  (st2, [Event.onDisconnection])

/-- `send(message)` (ws-server.ts lines 238-259): reject with
`NotConnected` unless the connection exists and is OPEN; otherwise arm the
30s timer, register the pending entry and write the message to the wire. -/
def send (st : WSState) (message : ExtensionMessage) : WSState × List Event :=
  match st.connection with
  | none => (st, [Event.rejectCall message.id SendError.notConnected])
  | some ws =>
      if sockLookup st.sockets ws = some ReadyState.OPEN then
        ({ st with
            pending := setPending st.pending
              ⟨message.id, message.type, st.now + REQUEST_TIMEOUT_MS⟩ },
         [Event.wireSend ws message])
      else
        (st, [Event.rejectCall message.id SendError.notConnected])

/-- The timeout callback armed by `send` (ws-server.ts lines 247-251):
delete the entry and reject the caller with the timeout error. -/
def fireTimeout (st : WSState) (id : String) : WSState × List Event :=
  match st.pending.find? (fun e => e.id == id) with
  | none => (st, [])
  | some e =>
      ({ st with pending := st.pending.filter (fun x => x.id ≠ id) },
       [Event.rejectCall id (SendError.timedOut e.opType)])

/-- An asynchronous completion that can occur during the shutdown drain:
a reply arriving on the socket, or a pending entry's own timer firing. -/
inductive DrainEvent where
  | msg (data : WireData)
  | timer (id : String)
deriving DecidableEq

/-- Run one drain-window completion through the corresponding handler. -/
def applyDrainEvent (st : WSState) : DrainEvent → WSState × List Event
  | DrainEvent.msg d => handleMessage st d
  | DrainEvent.timer id => fireTimeout st id

/-- The graceful wait of `close` (ws-server.ts lines 271-297): process the
timestamped completions that occur no later than the grace deadline. -/
def processDrain (deadline : Nat) : WSState → List (Nat × DrainEvent) → WSState × List Event
  | st, [] => (st, [])
  | st, tev :: rest =>
      if tev.1 ≤ deadline then
        let step := applyDrainEvent st tev.2
        let restRun := processDrain deadline step.1 rest
        (restRun.1, step.2 ++ restRun.2)
      else
        processDrain deadline st rest

/-- The tail of `close()` (ws-server.ts lines 299-318), applied to the
state and events produced by the graceful wait: force-reject every
remaining entry with `ServerClosing`, close the connection if present,
close the listening server. -/
def closeFinish (drained : WSState × List Event) : WSState × List Event :=
  let st1 := drained.1
  let forceEvts := st1.pending.map (fun e => Event.rejectCall e.id SendError.serverClosing)
  let st2 := { st1 with pending := [] }
  let closeConn : WSState × List Event :=
    match st2.connection with
    | some ws =>
        ({ st2 with
            connection := none,
            sockets := setSock st2.sockets ws ReadyState.CLOSING },
         [Event.closeSocket ws])
    | none => (st2, [])
  ({ closeConn.1 with serverClosed := true },
   drained.2 ++ forceEvts ++ closeConn.2)

/-- `close()` (ws-server.ts lines 267-319): if entries are pending, wait
for natural completions up to the 5s grace window; then force-reject every
remaining entry with `ServerClosing`, close the connection if present, and
close the listening server. -/
def close (st : WSState) (drain : List (Nat × DrainEvent)) : WSState × List Event :=
  closeFinish
    (if st.pending.isEmpty then (st, [])
     else processDrain (st.now + CLOSE_GRACE_MS) st drain)

end WSServer

/-- State of `createContext` (context.ts): the wrapped server state plus
the shared connection-wait promise.  `connectionPromise`/`connectionResolve`
are non-null exactly together, so one `Option` models both; it carries the
waiters sharing the promise and the absolute deadline of the shared timer. -/
structure CtxState where
  ws : WSState
  waiters : Option (List Nat × Nat)
deriving DecidableEq

/-- Observable effects at the context level. -/
inductive CtxEvent where
  | waiterResolved (w : Nat)
  | waiterRejected (w : Nat)
  | wsEvent (e : Event)
deriving DecidableEq

namespace Context

/-- Default `timeout` argument of `waitForConnection`. -/
def WAIT_TIMEOUT_MS : Nat := 30000

/-- `isConnected()` (context.ts lines 45-47): the connection reference is
present (`wsServer.getConnection() !== null`). -/
def isConnected (st : CtxState) : Bool :=
  (st.ws.connection).isSome

/-- `send(type, payload)` (context.ts lines 49-52): build the message with
the freshly generated id and delegate to the server's `send`. -/
def send (st : CtxState) (freshId : String) (type : String) (payload : Json) :
    CtxState × List Event :=
  let result := WSServer.send st.ws ⟨freshId, type, payload⟩
  ({ st with ws := result.1 }, result.2)

/-- `waitForConnection(timeout)` (context.ts lines 54-81) for caller `w`:
resolve immediately when connected; otherwise join the shared promise when
one exists, or create it (arming its timer) when absent. -/
def waitForConnection (st : CtxState) (w : Nat) (timeout : Nat) :
    CtxState × List CtxEvent :=
  if isConnected st then
    (st, [CtxEvent.waiterResolved w])
  else
    match st.waiters with
    | some present => ({ st with waiters := some (present.1 ++ [w], present.2) }, [])
    | none => ({ st with waiters := some ([w], st.ws.now + timeout) }, [])

/-- A new socket attaches: the server's connection handler runs, and its
`onConnection` callback (context.ts lines 30-36) resolves every waiter of
the shared promise and clears it. -/
def handleConnection (st : CtxState) (ws : Nat) : CtxState × List CtxEvent :=
  let srv := WSServer.handleConnection st.ws ws
  match st.waiters with
  | some present =>
      ({ ws := srv.1, waiters := none },
       srv.2.map CtxEvent.wsEvent ++ present.1.map CtxEvent.waiterResolved)
  | none => ({ ws := srv.1, waiters := st.waiters }, srv.2.map CtxEvent.wsEvent)

/-- The timer of the shared wait promise fires (context.ts lines 66-70):
clear the shared promise and reject every waiter. -/
def fireWaitTimeout (st : CtxState) : CtxState × List CtxEvent :=
  match st.waiters with
  | some present =>
      ({ st with waiters := none }, present.1.map CtxEvent.waiterRejected)
  | none => (st, [])

end Context

/-- The state before any socket exists. -/
def initState : WSState :=
  { sockets := [], adopted := [], connection := none, pending := [],
    serverClosed := false, now := 0 }

/-- One atomic turn of the event loop, from the server's point of view. -/
inductive WStep : WSState → WSState → Prop
  | newSock (st : WSState) (ws : Nat) (h : sockLookup st.sockets ws = none) :
      WStep st { st with sockets := st.sockets ++ [(ws, ReadyState.OPEN)] }
  | beginClose (st : WSState) (ws : Nat)
      (h : sockLookup st.sockets ws = some ReadyState.OPEN) :
      WStep st { st with sockets := setSock st.sockets ws ReadyState.CLOSING }
  | accept (st : WSState) (ws : Nat)
      (hopen : sockLookup st.sockets ws = some ReadyState.OPEN)
      (hfresh : ws ∉ st.adopted) :
      WStep st (WSServer.handleConnection st ws).1
  | message (st : WSState) (d : WireData) :
      WStep st (WSServer.handleMessage st d).1
  | closeEvt (st : WSState) (ws : Nat) (h : ws ∈ st.adopted) :
      WStep st (WSServer.handleSocketClose st ws).1
  | sendMsg (st : WSState) (m : ExtensionMessage) :
      WStep st (WSServer.send st m).1
  | timerFire (st : WSState) (e : PendingEntry) (he : e ∈ st.pending)
      (hd : e.deadline ≤ st.now) :
      WStep st (WSServer.fireTimeout st e.id).1
  | advance (st : WSState) (t : Nat) :
      WStep st { st with now := st.now + t }
  | serverClose (st : WSState) (drain : List (Nat × WSServer.DrainEvent)) :
      WStep st (WSServer.close st drain).1

/-- A state the server can actually be in. -/
def Reachable (st : WSState) : Prop :=
  Relation.ReflTransGen WStep initState st

/-- Process a sequence of inbound wire messages in arrival order. -/
def processMessages : WSState → List WireData → WSState × List Event
  | st, [] => (st, [])
  | st, d :: rest =>
      let step := WSServer.handleMessage st d
      let restRun := processMessages step.1 rest
      (restRun.1, step.2 ++ restRun.2)

/-- The promise resolutions among a list of events: which pending id was
resolved with which reply. -/
def resolutions (evts : List Event) : List (String × ExtensionResponse) :=
  evts.filterMap (fun e =>
    match e with
    | Event.resolveCall id r => some (id, r)
    | _ => none)

/-- Is this wire datum a reply carrying the given id? -/
def isReplyWithId (d : WireData) (i : String) : Bool :=
  match d with
  | WireData.reply r => r.id == i
  | WireData.garbage _ => false

/-- A state with one adopted, open peer connection. -/
def openSockState : WSState :=
  { sockets := [(0, ReadyState.OPEN)], adopted := [0], connection := some 0,
    pending := [], serverClosed := false, now := 0 }

/-- A state whose peer started the close handshake (readyState CLOSING)
but whose close event has not fired yet. -/
def halfClosedState : WSState :=
  { sockets := [(0, ReadyState.CLOSING)], adopted := [0], connection := some 0,
    pending := [], serverClosed := false, now := 0 }

/-- A state where socket 0 was superseded by socket 1 and is closing. -/
def supersededState : WSState :=
  { sockets := [(0, ReadyState.CLOSING), (1, ReadyState.OPEN)], adopted := [1, 0],
    connection := some 1, pending := [], serverClosed := false, now := 0 }

/-- A connected state with one pending request whose deadline has come. -/
def pendingState : WSState :=
  { sockets := [(0, ReadyState.OPEN)], adopted := [0], connection := some 0,
    pending := [⟨"a", "browser_navigate", 30000⟩], serverClosed := false,
    now := 30000 }

section Theorems

/-- In a table with no duplicate ids, `find?` by an element's id finds
exactly that element. -/
theorem find?_pending_of_nodup (l : List PendingEntry) (e : PendingEntry)
    (hnd : (l.map PendingEntry.id).Nodup) (he : e ∈ l) :
    l.find? (fun x => x.id == e.id) = some e := by
  induction l with
  | nil => cases he
  | cons a rest ih =>
      simp only [List.map_cons, List.nodup_cons, List.mem_map] at hnd
      rcases List.mem_cons.mp he with rfl | hmem
      · simp [List.find?]
      · have hne : (a.id == e.id) = false := by
          rw [beq_eq_false_iff_ne]
          intro hid
          exact hnd.1 ⟨e, hmem, hid.symm⟩
        rw [List.find?_cons_of_neg _ (by simp [hne]), ih hnd.2 hmem]

/-- The one-peer state arises from: socket 0 opens, the server accepts. -/
theorem openSockState_reachable : Reachable openSockState := by
  have h1 : WStep initState
      { sockets := [(0, ReadyState.OPEN)], adopted := [], connection := none,
        pending := [], serverClosed := false, now := 0 } :=
    WStep.newSock initState 0 rfl
  have h2 : WStep
      { sockets := [(0, ReadyState.OPEN)], adopted := [], connection := none,
        pending := [], serverClosed := false, now := 0 } openSockState :=
    WStep.accept _ 0 rfl (by decide)
  exact Relation.ReflTransGen.head h1 (Relation.ReflTransGen.single h2)

/-- The half-closed state arises from the one-peer state when the peer
starts the close handshake. -/
theorem halfClosedState_reachable : Reachable halfClosedState :=
  Relation.ReflTransGen.tail openSockState_reachable
    (WStep.beginClose openSockState 0 rfl)

/-- C5: `send` invoked while no peer connection is live (no connection
reference, or a reference whose socket is not OPEN) rejects with
`NotConnected` and leaves the state untouched: no pending entry is
registered, no timer armed, nothing queued. -/
theorem send_not_connected (st : WSState) (m : ExtensionMessage)
    (h : connOpen st = false) :
    WSServer.send st m = (st, [Event.rejectCall m.id SendError.notConnected]) := by
  unfold WSServer.send
  unfold connOpen at h
  cases hc : st.connection with
  | none => rfl
  | some ws =>
      rw [hc] at h
      simp only [beq_eq_false_iff_ne, ne_eq] at h
      simp [h]

/-- Witness for C5 at the initial state. -/
theorem send_not_connected_witness :
    connOpen initState = false ∧
    WSServer.send initState ⟨"a", "browser_navigate", ⟨""⟩⟩ =
      (initState, [Event.rejectCall "a" SendError.notConnected]) :=
  ⟨by decide, send_not_connected initState ⟨"a", "browser_navigate", ⟨""⟩⟩ (by decide)⟩

/-- C7: inbound data that fails to parse as a Reply is logged and dropped:
the state (in particular the pending table) is unchanged and the only
effect is the error log — no caller is resolved or rejected. -/
theorem malformed_message_dropped (st : WSState) (raw : String) :
    WSServer.handleMessage st (WireData.garbage raw) = (st, [Event.logParseError]) :=
  rfl

/-- C8: when the live peer connection's close event fires, the connection
reference is cleared, the detach callback fires, and every pending entry
is left unchanged. -/
theorem close_event_effects (st : WSState) (ws : Nat)
    (h : st.connection = some ws) :
    (WSServer.handleSocketClose st ws).1.connection = none ∧
    (WSServer.handleSocketClose st ws).2 = [Event.onDisconnection] ∧
    (WSServer.handleSocketClose st ws).1.pending = st.pending := by
  unfold WSServer.handleSocketClose
  simp [h]

/-- Witness for C8 at a state with a live connection. -/
theorem close_event_effects_witness :
    openSockState.connection = some 0 ∧
    ((WSServer.handleSocketClose openSockState 0).1.connection = none ∧
     (WSServer.handleSocketClose openSockState 0).2 = [Event.onDisconnection] ∧
     (WSServer.handleSocketClose openSockState 0).1.pending = openSockState.pending) :=
  ⟨rfl, close_event_effects openSockState 0 rfl⟩

/-- C10: after a new socket supersedes the old peer, the old peer's late
close event does not clear the connection reference (the new peer stays
attached), yet the detach callback still fires. -/
theorem superseded_close_keeps_connection (st : WSState) (oldWs newWs : Nat)
    (hconn : st.connection = some oldWs) (hne : oldWs ≠ newWs) :
    (WSServer.handleConnection st newWs).1.connection = some newWs ∧
    (WSServer.handleSocketClose (WSServer.handleConnection st newWs).1 oldWs).1.connection
        = some newWs ∧
    Event.onDisconnection ∈
      (WSServer.handleSocketClose (WSServer.handleConnection st newWs).1 oldWs).2 := by
  refine ⟨rfl, ?_, ?_⟩
  · unfold WSServer.handleSocketClose
    simp [WSServer.handleConnection, Ne.symm hne]
  · unfold WSServer.handleSocketClose
    simp

/-- Witness for C10: socket 1 supersedes socket 0, then socket 0 closes. -/
theorem superseded_close_keeps_connection_witness :
    openSockState.connection = some 0 ∧ (0 : Nat) ≠ 1 ∧
    ((WSServer.handleConnection openSockState 1).1.connection = some 1 ∧
     (WSServer.handleSocketClose (WSServer.handleConnection openSockState 1).1 0).1.connection
         = some 1 ∧
     Event.onDisconnection ∈
       (WSServer.handleSocketClose (WSServer.handleConnection openSockState 1).1 0).2) :=
  ⟨rfl, by decide, superseded_close_keeps_connection openSockState 0 1 rfl (by decide)⟩

/-- C9: in the reachable half-closed state (peer started closing but its
close event has not fired), `isConnected()` still reports `true` (the
reference is non-null) while `send` rejects with `NotConnected` (the
socket is not OPEN): the readiness query and `send` disagree. -/
theorem isConnected_send_disagree :
    Reachable halfClosedState ∧
    Context.isConnected { ws := halfClosedState, waiters := none } = true ∧
    ∀ i t p, Context.send { ws := halfClosedState, waiters := none } i t p =
      ({ ws := halfClosedState, waiters := none },
       [Event.rejectCall i SendError.notConnected]) := by
  refine ⟨halfClosedState_reachable, rfl, fun i t p => ?_⟩
  simp [Context.send, WSServer.send, halfClosedState, sockLookup]

/-- C4: when the timer of a pending entry fires (its 30s deadline reached
with no matching reply), the caller is rejected with the timeout error and
the entry is removed; a late reply with that id then matches no entry and
has no effect on any caller (it is only logged as unmatched). -/
theorem timeout_removes_entry (st : WSState) (e : PendingEntry) (r : ExtensionResponse)
    (he : e ∈ st.pending) (hnd : (pendingIds st).Nodup)
    (hdl : e.deadline ≤ st.now) (hrid : r.id = e.id) :
    WSServer.fireTimeout st e.id =
      ({ st with pending := st.pending.filter (fun x => x.id ≠ e.id) },
       [Event.rejectCall e.id (SendError.timedOut e.opType)]) ∧
    e.id ∉ pendingIds (WSServer.fireTimeout st e.id).1 ∧
    WSServer.handleMessage (WSServer.fireTimeout st e.id).1 (WireData.reply r) =
      ((WSServer.fireTimeout st e.id).1,
       [Event.logUnmatched r.id, Event.onMessage r]) := by
  have hfind : st.pending.find? (fun x => x.id == e.id) = some e :=
    find?_pending_of_nodup st.pending e hnd he
  have hfire : WSServer.fireTimeout st e.id =
      ({ st with pending := st.pending.filter (fun x => x.id ≠ e.id) },
       [Event.rejectCall e.id (SendError.timedOut e.opType)]) := by
    unfold WSServer.fireTimeout
    rw [hfind]
  have hnotin : e.id ∉ pendingIds (WSServer.fireTimeout st e.id).1 := by
    rw [hfire]
    simp [pendingIds, List.mem_filter]
  refine ⟨hfire, hnotin, ?_⟩
  unfold WSServer.handleMessage
  simp only [parseMessage]
  rw [if_neg]
  intro hcond
  exact hnotin (hrid ▸ hcond.2)

/-- Witness for C4: one pending entry at its deadline, then a late reply. -/
theorem timeout_removes_entry_witness :
    ((⟨"a", "browser_navigate", 30000⟩ : PendingEntry) ∈ pendingState.pending ∧
     (pendingIds pendingState).Nodup ∧ (30000 : Nat) ≤ pendingState.now) ∧
    "a" ∉ pendingIds (WSServer.fireTimeout pendingState "a").1 :=
  ⟨⟨by decide, by decide, by decide⟩,
   (timeout_removes_entry pendingState ⟨"a", "browser_navigate", 30000⟩
     ⟨"a", true, none, none⟩ (by decide) (by decide) (by decide) rfl).2.1⟩

/-- C6: `waitForConnection` resolves immediately when connected; when not
connected a first waiter creates the shared promise (arming its timer) and
later waiters join the same promise and deadline; an attach resolves all
waiters at once and clears the promise; the timer rejects all waiters at
once and clears the promise, so a later wait starts fresh. -/
theorem wait_for_connection_spec (st : CtxState) (w ws t : Nat) :
    (Context.isConnected st = true →
      Context.waitForConnection st w t = (st, [CtxEvent.waiterResolved w])) ∧
    (Context.isConnected st = false → st.waiters = none →
      Context.waitForConnection st w t =
        ({ st with waiters := some ([w], st.ws.now + t) }, [])) ∧
    (∀ l d, Context.isConnected st = false → st.waiters = some (l, d) →
      Context.waitForConnection st w t =
        ({ st with waiters := some (l ++ [w], d) }, [])) ∧
    (∀ l d, st.waiters = some (l, d) →
      (Context.handleConnection st ws).1.waiters = none ∧
      ∀ x ∈ l, CtxEvent.waiterResolved x ∈ (Context.handleConnection st ws).2) ∧
    (∀ l d, st.waiters = some (l, d) →
      Context.fireWaitTimeout st =
        ({ st with waiters := none }, l.map CtxEvent.waiterRejected)) := by
  refine ⟨?_, ?_, ?_, ?_, ?_⟩
  · intro h
    simp [Context.waitForConnection, h]
  · intro h hw
    simp [Context.waitForConnection, h, hw]
  · intro l d h hw
    simp [Context.waitForConnection, h, hw]
  · intro l d hw
    refine ⟨by simp [Context.handleConnection, hw], fun x hx => ?_⟩
    simp only [Context.handleConnection, hw]
    exact List.mem_append_right _ (List.mem_map_of_mem _ hx)
  · intro l d hw
    simp [Context.fireWaitTimeout, hw]

/-- Witness for C6: a first waiter creates the shared promise, the attach
of socket 0 resolves it. -/
theorem wait_for_connection_spec_witness :
    (Context.isConnected { ws := initState, waiters := none } = false ∧
     Context.waitForConnection { ws := initState, waiters := none } 1 30000 =
       ({ ws := initState, waiters := some ([1], 30000) }, [])) ∧
    (∀ x ∈ [1], CtxEvent.waiterResolved x ∈
      (Context.handleConnection { ws := initState, waiters := some ([1], 30000) } 0).2) :=
  ⟨⟨by decide,
    (wait_for_connection_spec { ws := initState, waiters := none } 1 0 30000).2.1
      (by decide) rfl⟩,
   ((wait_for_connection_spec { ws := initState, waiters := some ([1], 30000) } 1 0 30000).2.2.2.1
      [1] 30000 rfl).2⟩

/-- Unfolding equation for `processMessages` on a cons cell. -/
theorem processMessages_cons (st : WSState) (d : WireData) (rest : List WireData) :
    processMessages st (d :: rest) =
      ((processMessages (WSServer.handleMessage st d).1 rest).1,
       (WSServer.handleMessage st d).2 ++
         (processMessages (WSServer.handleMessage st d).1 rest).2) :=
  rfl

/-- `resolutions` distributes over event-list concatenation. -/
theorem resolutions_append (a b : List Event) :
    resolutions (a ++ b) = resolutions a ++ resolutions b := by
  unfold resolutions
  exact List.filterMap_append a b _

/-- A resolution emitted by the message handler resolves exactly the id of
the reply that arrived, with that reply as the value. -/
theorem resolution_sound_step (st : WSState) (d : WireData)
    (p : String × ExtensionResponse)
    (hp : p ∈ resolutions (WSServer.handleMessage st d).2) :
    p.1 = p.2.id ∧ d = WireData.reply p.2 := by
  cases d with
  | garbage raw => simp [WSServer.handleMessage, parseMessage, resolutions] at hp
  | reply r =>
      unfold WSServer.handleMessage at hp
      simp only [parseMessage] at hp
      by_cases h : r.id ≠ "" ∧ r.id ∈ pendingIds st
      · rw [if_pos h] at hp
        simp only [resolutions, List.filterMap_cons, List.filterMap_nil] at hp
        simp only [List.mem_cons, List.not_mem_nil, or_false] at hp
        subst hp
        exact ⟨rfl, rfl⟩
      · rw [if_neg h] at hp
        simp [resolutions] at hp

/-- The matched branch of the message handler. -/
theorem handleMessage_hit (st : WSState) (r : ExtensionResponse)
    (hne : r.id ≠ "") (hi : r.id ∈ pendingIds st) :
    WSServer.handleMessage st (WireData.reply r) =
      ({ st with pending := st.pending.filter (fun e => e.id ≠ r.id) },
       [Event.resolveCall r.id r, Event.onMessage r]) := by
  unfold WSServer.handleMessage
  simp only [parseMessage]
  rw [if_pos ⟨hne, hi⟩]

/-- A pending id survives the handling of any wire datum that is not a
reply carrying that id. -/
theorem pending_survives_step (st : WSState) (d : WireData) (i : String)
    (hi : i ∈ pendingIds st) (hd : isReplyWithId d i = false) :
    i ∈ pendingIds (WSServer.handleMessage st d).1 := by
  cases d with
  | garbage raw => simpa [WSServer.handleMessage] using hi
  | reply r =>
      have hne : r.id ≠ i := by simpa [isReplyWithId] using hd
      unfold WSServer.handleMessage
      simp only [parseMessage]
      by_cases h : r.id ≠ "" ∧ r.id ∈ pendingIds st
      · rw [if_pos h]
        simp only [pendingIds, List.mem_map] at hi ⊢
        obtain ⟨e, he, hei⟩ := hi
        refine ⟨e, List.mem_filter.mpr ⟨he, ?_⟩, hei⟩
        simp only [ne_eq, decide_eq_true_eq, hei]
        exact fun hh => hne hh.symm
      · rw [if_neg h]
        exact hi

/-- Soundness over a whole arrival sequence: every resolution pairs an id
with the reply carrying that very id, and that reply did arrive. -/
theorem resolutions_sound (st : WSState) (msgs : List WireData)
    (p : String × ExtensionResponse)
    (hp : p ∈ resolutions (processMessages st msgs).2) :
    p.1 = p.2.id ∧ WireData.reply p.2 ∈ msgs := by
  induction msgs generalizing st with
  | nil => simp [processMessages, resolutions] at hp
  | cons d rest ih =>
      rw [processMessages_cons, resolutions_append] at hp
      rcases List.mem_append.mp hp with h1 | h2
      · have hs := resolution_sound_step st d p h1
        exact ⟨hs.1, hs.2 ▸ List.mem_cons_self d rest⟩
      · have hs := ih (WSServer.handleMessage st d).1 h2
        exact ⟨hs.1, List.mem_cons_of_mem d hs.2⟩

/-- Completeness: a pending id whose unique matching reply arrives, in any
position of the arrival order, gets resolved with exactly that reply. -/
theorem correlation_aux (st : WSState) (msgs : List WireData) (r : ExtensionResponse)
    (hne : r.id ≠ "") (hi : r.id ∈ pendingIds st)
    (hr : WireData.reply r ∈ msgs)
    (huniq : ∀ d ∈ msgs, isReplyWithId d r.id = true → d = WireData.reply r) :
    (r.id, r) ∈ resolutions (processMessages st msgs).2 := by
  induction msgs generalizing st with
  | nil => cases hr
  | cons d rest ih =>
      rw [processMessages_cons, resolutions_append]
      by_cases hd : isReplyWithId d r.id = true
      · have hdr : d = WireData.reply r := huniq d (List.mem_cons_self d rest) hd
        subst hdr
        have h2 : (WSServer.handleMessage st (WireData.reply r)).2 =
            [Event.resolveCall r.id r, Event.onMessage r] := by
          rw [handleMessage_hit st r hne hi]
        rw [h2]
        exact List.mem_append_left _ (by simp [resolutions])
      · have hi' := pending_survives_step st d r.id hi (Bool.not_eq_true _ ▸ hd)
        have hr' : WireData.reply r ∈ rest := by
          rcases List.mem_cons.mp hr with hdr | hr'
          · exact absurd (by simp [← hdr, isReplyWithId]) hd
          · exact hr'
        refine List.mem_append_right _ ?_
        exact ih (WSServer.handleMessage st d).1 hi' hr'
          (fun d' hd' => huniq d' (List.mem_cons_of_mem d hd'))

/-- `connOpen` unpacked: an open connection is a connected socket whose
readyState is OPEN. -/
theorem connOpen_iff (st : WSState) :
    connOpen st = true ↔
      ∃ ws, st.connection = some ws ∧
        sockLookup st.sockets ws = some ReadyState.OPEN := by
  unfold connOpen
  cases hc : st.connection <;> simp

/-- The successful branch of `send`, as an equation. -/
theorem send_open_eq (st : WSState) (m : ExtensionMessage) (ws : Nat)
    (hc : st.connection = some ws)
    (hl : sockLookup st.sockets ws = some ReadyState.OPEN) :
    WSServer.send st m =
      ({ st with
          pending := setPending st.pending
            ⟨m.id, m.type, st.now + WSServer.REQUEST_TIMEOUT_MS⟩ },
       [Event.wireSend ws m]) := by
  unfold WSServer.send
  rw [hc]
  simp [hl]

/-- The overwritten or appended entry is present after `setPending`. -/
theorem mem_setPending_map_id (l : List PendingEntry) (e : PendingEntry) :
    e.id ∈ (setPending l e).map PendingEntry.id := by
  unfold setPending
  by_cases hany : l.any (fun x => x.id == e.id)
  · rw [if_pos hany]
    obtain ⟨x, hx, hbeq⟩ := List.any_eq_true.mp hany
    refine List.mem_map.mpr ⟨e, ?_, rfl⟩
    exact List.mem_map.mpr ⟨x, hx, by rw [if_pos hbeq]⟩
  · rw [if_neg hany]
    simp

/-- A `send` on an open connection registers its id in the pending table. -/
theorem send_registers (st : WSState) (m : ExtensionMessage)
    (h : connOpen st = true) :
    m.id ∈ pendingIds (WSServer.send st m).1 := by
  obtain ⟨ws, hc, hl⟩ := (connOpen_iff st).mp h
  rw [send_open_eq st m ws hc hl]
  exact mem_setPending_map_id st.pending _

/-- C1: issue a `send` while connected, so its fresh id is registered; let
any sequence of wire messages then arrive in any order, among them exactly
one reply carrying that id.  The caller is resolved with exactly that
reply, and every resolution delivered for that id is that reply. -/
theorem send_reply_correlation (st : WSState) (m : ExtensionMessage)
    (msgs : List WireData) (r : ExtensionResponse)
    (hopen : connOpen st = true) (hne : m.id ≠ "") (hfresh : m.id ∉ pendingIds st)
    (hr : WireData.reply r ∈ msgs) (hrid : r.id = m.id)
    (huniq : ∀ d ∈ msgs, isReplyWithId d m.id = true → d = WireData.reply r) :
    (m.id, r) ∈ resolutions (processMessages (WSServer.send st m).1 msgs).2 ∧
    ∀ p ∈ resolutions (processMessages (WSServer.send st m).1 msgs).2,
      p.1 = m.id → p.2 = r := by
  have hreg : m.id ∈ pendingIds (WSServer.send st m).1 := send_registers st m hopen
  constructor
  · have := correlation_aux (WSServer.send st m).1 msgs r
      (hrid ▸ hne) (hrid ▸ hreg) hr (hrid ▸ huniq)
    simpa [hrid] using this
  · intro p hp hpid
    have hs := resolutions_sound (WSServer.send st m).1 msgs p hp
    have : isReplyWithId (WireData.reply p.2) m.id = true := by
      simp [isReplyWithId, ← hs.1, hpid]
    have := huniq (WireData.reply p.2) hs.2 this
    injection this with h

/-- Witness for C1: one send, then the unmatched reply "b" arrives before
the matching reply "a" (reverse order); the caller still gets reply "a". -/
theorem send_reply_correlation_witness :
    (connOpen openSockState = true ∧ ("a" : String) ≠ "" ∧
     WireData.reply ⟨"a", true, none, none⟩ ∈
       ([WireData.reply ⟨"b", true, none, none⟩,
         WireData.reply ⟨"a", true, none, none⟩] : List WireData)) ∧
    ("a", (⟨"a", true, none, none⟩ : ExtensionResponse)) ∈
      resolutions (processMessages
        (WSServer.send openSockState ⟨"a", "browser_navigate", ⟨""⟩⟩).1
        [WireData.reply ⟨"b", true, none, none⟩,
         WireData.reply ⟨"a", true, none, none⟩]).2 :=
  ⟨⟨by decide, by decide, by decide⟩,
   (send_reply_correlation openSockState ⟨"a", "browser_navigate", ⟨""⟩⟩
      [WireData.reply ⟨"b", true, none, none⟩,
       WireData.reply ⟨"a", true, none, none⟩]
      ⟨"a", true, none, none⟩ (by decide) (by decide) (by decide) (by decide) rfl
      (by decide)).1⟩

/-- The message handler touches only the pending table and events. -/
theorem handleMessage_frame (st : WSState) (d : WireData) :
    (WSServer.handleMessage st d).1.sockets = st.sockets ∧
    (WSServer.handleMessage st d).1.adopted = st.adopted ∧
    (WSServer.handleMessage st d).1.connection = st.connection ∧
    (WSServer.handleMessage st d).1.serverClosed = st.serverClosed ∧
    (WSServer.handleMessage st d).1.now = st.now := by
  cases d with
  | garbage raw => simp [WSServer.handleMessage, parseMessage]
  | reply r =>
      unfold WSServer.handleMessage
      simp only [parseMessage]
      split <;> simp

/-- The timeout callback touches only the pending table and events. -/
theorem fireTimeout_frame (st : WSState) (id : String) :
    (WSServer.fireTimeout st id).1.sockets = st.sockets ∧
    (WSServer.fireTimeout st id).1.adopted = st.adopted ∧
    (WSServer.fireTimeout st id).1.connection = st.connection ∧
    (WSServer.fireTimeout st id).1.serverClosed = st.serverClosed ∧
    (WSServer.fireTimeout st id).1.now = st.now := by
  unfold WSServer.fireTimeout
  split <;> simp

/-- Equation for the timeout callback when no entry matches. -/
theorem fireTimeout_eq_none (st : WSState) (id : String)
    (hf : st.pending.find? (fun x => x.id == id) = none) :
    WSServer.fireTimeout st id = (st, []) := by
  unfold WSServer.fireTimeout
  rw [hf]

/-- Equation for the timeout callback when an entry matches. -/
theorem fireTimeout_eq_some (st : WSState) (id : String) (found : PendingEntry)
    (hf : st.pending.find? (fun x => x.id == id) = some found) :
    WSServer.fireTimeout st id =
      ({ st with pending := st.pending.filter (fun x => x.id ≠ id) },
       [Event.rejectCall id (SendError.timedOut found.opType)]) := by
  unfold WSServer.fireTimeout
  rw [hf]

/-- `send` touches only the pending table and events. -/
theorem send_frame (st : WSState) (m : ExtensionMessage) :
    (WSServer.send st m).1.sockets = st.sockets ∧
    (WSServer.send st m).1.adopted = st.adopted ∧
    (WSServer.send st m).1.connection = st.connection ∧
    (WSServer.send st m).1.serverClosed = st.serverClosed ∧
    (WSServer.send st m).1.now = st.now := by
  unfold WSServer.send
  split
  · simp
  · split <;> simp

/-- A drain-window completion touches only the pending table and events. -/
theorem applyDrainEvent_frame (st : WSState) (ev : WSServer.DrainEvent) :
    (WSServer.applyDrainEvent st ev).1.sockets = st.sockets ∧
    (WSServer.applyDrainEvent st ev).1.adopted = st.adopted ∧
    (WSServer.applyDrainEvent st ev).1.connection = st.connection ∧
    (WSServer.applyDrainEvent st ev).1.serverClosed = st.serverClosed ∧
    (WSServer.applyDrainEvent st ev).1.now = st.now := by
  cases ev with
  | msg d => exact handleMessage_frame st d
  | timer id => exact fireTimeout_frame st id

/-- Unfolding equation for `processDrain`, in-window event. -/
theorem processDrain_cons_le (deadline : Nat) (st : WSState)
    (tev : Nat × WSServer.DrainEvent) (rest : List (Nat × WSServer.DrainEvent))
    (h : tev.1 ≤ deadline) :
    WSServer.processDrain deadline st (tev :: rest) =
      ((WSServer.processDrain deadline (WSServer.applyDrainEvent st tev.2).1 rest).1,
       (WSServer.applyDrainEvent st tev.2).2 ++
         (WSServer.processDrain deadline (WSServer.applyDrainEvent st tev.2).1 rest).2) := by
  simp only [WSServer.processDrain, if_pos h]

/-- Unfolding equation for `processDrain`, out-of-window event. -/
theorem processDrain_cons_gt (deadline : Nat) (st : WSState)
    (tev : Nat × WSServer.DrainEvent) (rest : List (Nat × WSServer.DrainEvent))
    (h : ¬ tev.1 ≤ deadline) :
    WSServer.processDrain deadline st (tev :: rest) =
      WSServer.processDrain deadline st rest := by
  simp only [WSServer.processDrain, if_neg h]

/-- The graceful wait touches only the pending table and events. -/
theorem processDrain_frame (deadline : Nat) (st : WSState)
    (evs : List (Nat × WSServer.DrainEvent)) :
    (WSServer.processDrain deadline st evs).1.sockets = st.sockets ∧
    (WSServer.processDrain deadline st evs).1.adopted = st.adopted ∧
    (WSServer.processDrain deadline st evs).1.connection = st.connection ∧
    (WSServer.processDrain deadline st evs).1.serverClosed = st.serverClosed ∧
    (WSServer.processDrain deadline st evs).1.now = st.now := by
  induction evs generalizing st with
  | nil => exact ⟨rfl, rfl, rfl, rfl, rfl⟩
  | cons tev rest ih =>
      by_cases h : tev.1 ≤ deadline
      · rw [processDrain_cons_le deadline st tev rest h]
        have hstep := applyDrainEvent_frame st tev.2
        have hrest := ih (WSServer.applyDrainEvent st tev.2).1
        exact ⟨hrest.1.trans hstep.1, hrest.2.1.trans hstep.2.1,
          hrest.2.2.1.trans hstep.2.2.1, hrest.2.2.2.1.trans hstep.2.2.2.1,
          hrest.2.2.2.2.trans hstep.2.2.2.2⟩
      · rw [processDrain_cons_gt deadline st tev rest h]
        exact ih st

/-- Each pending entry either survives one drain-window completion or is
resolved or timeout-rejected by it, with the corresponding event. -/
theorem drain_step_account (st : WSState) (ev : WSServer.DrainEvent)
    (e : PendingEntry) (he : e ∈ st.pending) :
    e ∈ (WSServer.applyDrainEvent st ev).1.pending ∨
    (∃ p ∈ resolutions (WSServer.applyDrainEvent st ev).2, p.1 = e.id) ∨
    (∃ s, Event.rejectCall e.id (SendError.timedOut s) ∈
      (WSServer.applyDrainEvent st ev).2) := by
  cases ev with
  | msg d =>
      cases d with
      | garbage raw => exact Or.inl (by simpa [WSServer.handleMessage, parseMessage])
      | reply r =>
          unfold WSServer.applyDrainEvent WSServer.handleMessage
          simp only [parseMessage]
          by_cases hc : r.id ≠ "" ∧ r.id ∈ pendingIds st
          · rw [if_pos hc]
            by_cases hid : e.id = r.id
            · refine Or.inr (Or.inl ⟨(r.id, r), ?_, hid.symm⟩)
              simp [resolutions]
            · refine Or.inl ?_
              simp only [List.mem_filter]
              exact ⟨he, by simp [hid]⟩
          · rw [if_neg hc]
            exact Or.inl he
  | timer id =>
      have hred : WSServer.applyDrainEvent st (WSServer.DrainEvent.timer id) =
          WSServer.fireTimeout st id := rfl
      rw [hred]
      cases hf : st.pending.find? (fun x => x.id == id) with
      | none => exact Or.inl (fireTimeout_eq_none st id hf ▸ he)
      | some found =>
          rw [fireTimeout_eq_some st id found hf]
          by_cases hid : e.id = id
          · exact Or.inr (Or.inr ⟨found.opType, by simp [hid]⟩)
          · refine Or.inl ?_
            simp only [List.mem_filter]
            exact ⟨he, by simp [hid]⟩

/-- Each pending entry either survives the whole graceful wait or is
resolved or timeout-rejected during it. -/
theorem processDrain_account (deadline : Nat) (st : WSState)
    (evs : List (Nat × WSServer.DrainEvent)) (e : PendingEntry)
    (he : e ∈ st.pending) :
    e ∈ (WSServer.processDrain deadline st evs).1.pending ∨
    (∃ p ∈ resolutions (WSServer.processDrain deadline st evs).2, p.1 = e.id) ∨
    (∃ s, Event.rejectCall e.id (SendError.timedOut s) ∈
      (WSServer.processDrain deadline st evs).2) := by
  induction evs generalizing st with
  | nil => exact Or.inl he
  | cons tev rest ih =>
      by_cases h : tev.1 ≤ deadline
      · rw [processDrain_cons_le deadline st tev rest h]
        rcases drain_step_account st tev.2 e he with h1 | h2 | h3
        · rcases ih (WSServer.applyDrainEvent st tev.2).1 h1 with g1 | g2 | g3
          · exact Or.inl g1
          · obtain ⟨p, hp, hpid⟩ := g2
            refine Or.inr (Or.inl ⟨p, ?_, hpid⟩)
            rw [resolutions_append]
            exact List.mem_append_right _ hp
          · obtain ⟨s, hs⟩ := g3
            exact Or.inr (Or.inr ⟨s, List.mem_append_right _ hs⟩)
        · obtain ⟨p, hp, hpid⟩ := h2
          refine Or.inr (Or.inl ⟨p, ?_, hpid⟩)
          rw [resolutions_append]
          exact List.mem_append_left _ hp
        · obtain ⟨s, hs⟩ := h3
          exact Or.inr (Or.inr ⟨s, List.mem_append_left _ hs⟩)
      · rw [processDrain_cons_gt deadline st tev rest h]
        exact ih st he

/-- `processDrain` ignores completions after the deadline. -/
theorem processDrain_filter (deadline : Nat) (st : WSState)
    (evs : List (Nat × WSServer.DrainEvent)) :
    WSServer.processDrain deadline st evs =
      WSServer.processDrain deadline st
        (evs.filter (fun tev => tev.1 ≤ deadline)) := by
  induction evs generalizing st with
  | nil => rfl
  | cons tev rest ih =>
      by_cases h : tev.1 ≤ deadline
      · rw [processDrain_cons_le deadline st tev rest h,
          List.filter_cons_of_pos (by simp [h]),
          processDrain_cons_le deadline st tev _ h, ih]
      · rw [processDrain_cons_gt deadline st tev rest h,
          List.filter_cons_of_neg (by simp [h]), ih]

/-- What the tail of `close` guarantees about its result. -/
theorem closeFinish_spec (p : WSState × List Event) :
    (WSServer.closeFinish p).1.pending = [] ∧
    (WSServer.closeFinish p).1.connection = none ∧
    (WSServer.closeFinish p).1.serverClosed = true ∧
    (∀ c, p.1.connection = some c →
      Event.closeSocket c ∈ (WSServer.closeFinish p).2) ∧
    (∀ e ∈ p.1.pending,
      Event.rejectCall e.id SendError.serverClosing ∈ (WSServer.closeFinish p).2) ∧
    (∀ ev ∈ p.2, ev ∈ (WSServer.closeFinish p).2) := by
  obtain ⟨⟨socks, adop, conn, pend, sc, cnow⟩, evts⟩ := p
  cases conn with
  | none =>
      have hq : WSServer.closeFinish
          ((⟨socks, adop, none, pend, sc, cnow⟩ : WSState), evts) =
          ((⟨socks, adop, none, [], true, cnow⟩ : WSState),
           evts ++ pend.map (fun e => Event.rejectCall e.id SendError.serverClosing)
             ++ []) := rfl
      rw [hq]
      refine ⟨rfl, rfl, rfl, ?_, ?_, ?_⟩
      · intro c hcc
        cases hcc
      · intro e he
        simp only [List.append_nil, List.mem_append]
        exact Or.inr (List.mem_map.mpr ⟨e, he, rfl⟩)
      · intro ev hev
        simp only [List.append_nil, List.mem_append]
        exact Or.inl hev
  | some ws =>
      have hq : WSServer.closeFinish
          ((⟨socks, adop, some ws, pend, sc, cnow⟩ : WSState), evts) =
          ((⟨setSock socks ws ReadyState.CLOSING, adop, none, [], true, cnow⟩ : WSState),
           evts ++ pend.map (fun e => Event.rejectCall e.id SendError.serverClosing)
             ++ [Event.closeSocket ws]) := rfl
      rw [hq]
      refine ⟨rfl, rfl, rfl, ?_, ?_, ?_⟩
      · intro c hcc
        injection hcc with hcc
        subst hcc
        simp
      · intro e he
        simp only [List.mem_append]
        exact Or.inl (Or.inr (List.mem_map.mpr ⟨e, he, rfl⟩))
      · intro ev hev
        simp only [List.mem_append]
        exact Or.inl (Or.inl hev)

/-- C2: after `close()` the pending table is empty, the peer connection
(if any) has been closed and cleared, and the listening endpoint is
closed; each entry pending at close time was either resolved or rejected
naturally by a completion inside the 5s grace window, or force-rejected
with `ServerClosing`; completions after the grace window have no effect. -/
theorem close_drain_spec (st : WSState) (drain : List (Nat × WSServer.DrainEvent)) :
    (WSServer.close st drain).1.pending = [] ∧
    (WSServer.close st drain).1.connection = none ∧
    (WSServer.close st drain).1.serverClosed = true ∧
    (∀ c, st.connection = some c →
      Event.closeSocket c ∈ (WSServer.close st drain).2) ∧
    (∀ e ∈ st.pending,
        (∃ p ∈ resolutions (WSServer.close st drain).2, p.1 = e.id) ∨
        (∃ s, Event.rejectCall e.id (SendError.timedOut s) ∈
          (WSServer.close st drain).2) ∨
        Event.rejectCall e.id SendError.serverClosing ∈ (WSServer.close st drain).2) ∧
    WSServer.close st drain =
      WSServer.close st
        (drain.filter (fun tev => tev.1 ≤ st.now + WSServer.CLOSE_GRACE_MS)) := by
  by_cases hemp : st.pending.isEmpty
  · have hdr : WSServer.close st drain = WSServer.closeFinish (st, []) := by
      unfold WSServer.close
      rw [if_pos hemp]
    have hdr2 : WSServer.close st
        (drain.filter (fun tev => tev.1 ≤ st.now + WSServer.CLOSE_GRACE_MS)) =
        WSServer.closeFinish (st, []) := by
      unfold WSServer.close
      rw [if_pos hemp]
    have hf := closeFinish_spec (st, [])
    refine ⟨hdr ▸ hf.1, hdr ▸ hf.2.1, hdr ▸ hf.2.2.1, ?_, ?_, hdr.trans hdr2.symm⟩
    · intro c hcc
      rw [hdr]
      exact hf.2.2.2.1 c hcc
    · intro e he
      rw [List.isEmpty_iff.mp hemp] at he
      cases he
  · have hdr : WSServer.close st drain =
        WSServer.closeFinish
          (WSServer.processDrain (st.now + WSServer.CLOSE_GRACE_MS) st drain) := by
      unfold WSServer.close
      rw [if_neg hemp]
    set dr := WSServer.processDrain (st.now + WSServer.CLOSE_GRACE_MS) st drain with hdrdef
    have hframe := processDrain_frame (st.now + WSServer.CLOSE_GRACE_MS) st drain
    have hf := closeFinish_spec dr
    refine ⟨hdr ▸ hf.1, hdr ▸ hf.2.1, hdr ▸ hf.2.2.1, ?_, ?_, ?_⟩
    · intro c hcc
      rw [hdr]
      exact hf.2.2.2.1 c (hframe.2.2.1.trans hcc)
    · intro e he
      rcases processDrain_account (st.now + WSServer.CLOSE_GRACE_MS) st drain e he
        with h1 | h2 | h3
      · refine Or.inr (Or.inr ?_)
        rw [hdr]
        exact hf.2.2.2.2.1 e h1
      · obtain ⟨p, hp, hpid⟩ := h2
        refine Or.inl ⟨p, ?_, hpid⟩
        rw [hdr]
        unfold resolutions at hp ⊢
        exact List.mem_filterMap.mpr
          (by
            obtain ⟨ev, hev, hevp⟩ := List.mem_filterMap.mp hp
            exact ⟨ev, hf.2.2.2.2.2 ev hev, hevp⟩)
      · obtain ⟨s, hs⟩ := h3
        refine Or.inr (Or.inl ⟨s, ?_⟩)
        rw [hdr]
        exact hf.2.2.2.2.2 _ hs
    · rw [hdr]
      unfold WSServer.close
      rw [if_neg hemp, hdrdef,
        processDrain_filter (st.now + WSServer.CLOSE_GRACE_MS) st drain]

/-- How `setSock` affects lookups. -/
theorem sockLookup_setSock (l : List (Nat × ReadyState)) (k k' : Nat) (v : ReadyState) :
    sockLookup (setSock l k v) k' =
      if k' = k then (sockLookup l k).map (fun _ => v) else sockLookup l k' := by
  induction l with
  | nil =>
      show (none : Option ReadyState) =
        if k' = k then Option.map (fun _ => v) none else none
      by_cases h : k' = k
      · rw [if_pos h]
        rfl
      · rw [if_neg h]
  | cons a rest ih =>
      obtain ⟨ak, av⟩ := a
      have hsetcons : setSock ((ak, av) :: rest) k v =
          (if ak = k then (k, v) else (ak, av)) :: setSock rest k v := by
        show (if ak = k then (k, v) else (ak, av)) :: setSock rest k v = _
        rfl
      rw [hsetcons]
      by_cases hak : ak = k
      · rw [if_pos hak]
        show (if k' = k then some v else sockLookup (setSock rest k v) k') = _
        by_cases hk' : k' = k
        · rw [if_pos hk', if_pos hk']
          show some v = (sockLookup ((ak, av) :: rest) k).map (fun _ => v)
          show some v = (if k = ak then some av else sockLookup rest k).map (fun _ => v)
          rw [if_pos hak.symm]
          rfl
        · rw [if_neg hk', if_neg hk', ih, if_neg hk']
          show sockLookup rest k' = (if k' = ak then some av else sockLookup rest k')
          rw [if_neg (fun h => hk' (h.trans hak))]
      · rw [if_neg hak]
        show (if k' = ak then some av else sockLookup (setSock rest k v) k') = _
        by_cases hk'a : k' = ak
        · rw [if_pos hk'a]
          have hk'k : ¬ k' = k := fun h => hak (hk'a ▸ h)
          rw [if_neg hk'k]
          show some av = (if k' = ak then some av else sockLookup rest k')
          rw [if_pos hk'a]
        · rw [if_neg hk'a, ih]
          by_cases hk'k : k' = k
          · rw [if_pos hk'k, if_pos hk'k]
            show (sockLookup rest k).map (fun _ => v) =
              ((if k = ak then some av else sockLookup rest k)).map (fun _ => v)
            rw [if_neg (fun h => hak h.symm)]
          · rw [if_neg hk'k, if_neg hk'k]
            show sockLookup rest k' = (if k' = ak then some av else sockLookup rest k')
            rw [if_neg hk'a]

/-- Lookup in an appended socket table. -/
theorem sockLookup_append (l l' : List (Nat × ReadyState)) (k : Nat) :
    sockLookup (l ++ l') k = (sockLookup l k).or (sockLookup l' k) := by
  induction l with
  | nil => simp [sockLookup]
  | cons a rest ih =>
      obtain ⟨ak, av⟩ := a
      by_cases hk : k = ak <;> simp [sockLookup, hk, ih]

/-- The induction invariant behind connection exclusivity: every adopted
socket is known, and an adopted socket that is still OPEN must be the
current connection. -/
def ConnInv (st : WSState) : Prop :=
  (∀ a ∈ st.adopted, (sockLookup st.sockets a).isSome = true) ∧
  (∀ a ∈ st.adopted, sockLookup st.sockets a = some ReadyState.OPEN →
    st.connection = some a)

/-- `ConnInv` only looks at sockets, adopted and connection. -/
theorem connInv_of_frame (st st' : WSState) (hs : st'.sockets = st.sockets)
    (ha : st'.adopted = st.adopted) (hc : st'.connection = st.connection)
    (hinv : ConnInv st) : ConnInv st' := by
  unfold ConnInv
  rw [hs, ha, hc]
  exact hinv

/-- The connection handler when the current connection is live. -/
theorem handleConnection_eq_live (st : WSState) (ws old : Nat)
    (hc : st.connection = some old)
    (hl : sockLookup st.sockets old = some ReadyState.OPEN) :
    WSServer.handleConnection st ws =
      ({ st with
          sockets := setSock st.sockets old ReadyState.CLOSING,
          adopted := ws :: st.adopted,
          connection := some ws },
       [Event.closeSocket old, Event.onConnection ws]) := by
  unfold WSServer.handleConnection
  rw [hc]
  simp [hl]

/-- The connection handler when a connection exists but is not OPEN. -/
theorem handleConnection_eq_stale (st : WSState) (ws old : Nat)
    (hc : st.connection = some old)
    (hl : sockLookup st.sockets old ≠ some ReadyState.OPEN) :
    WSServer.handleConnection st ws =
      ({ st with adopted := ws :: st.adopted, connection := some ws },
       [Event.onConnection ws]) := by
  unfold WSServer.handleConnection
  rw [hc]
  simp [hl]

/-- The connection handler when no connection exists. -/
theorem handleConnection_eq_none (st : WSState) (ws : Nat)
    (hc : st.connection = none) :
    WSServer.handleConnection st ws =
      ({ st with adopted := ws :: st.adopted, connection := some ws },
       [Event.onConnection ws]) := by
  unfold WSServer.handleConnection
  rw [hc]
  rfl

/-- The close handler when the closing socket is the current connection. -/
theorem handleSocketClose_eq_cur (st : WSState) (ws : Nat)
    (hc : st.connection = some ws) :
    WSServer.handleSocketClose st ws =
      ({ st with
          sockets := setSock st.sockets ws ReadyState.CLOSED,
          connection := none },
       [Event.onDisconnection]) := by
  unfold WSServer.handleSocketClose
  simp [hc]

/-- The close handler when the closing socket is not the current one. -/
theorem handleSocketClose_eq_other (st : WSState) (ws : Nat)
    (hc : st.connection ≠ some ws) :
    WSServer.handleSocketClose st ws =
      ({ st with sockets := setSock st.sockets ws ReadyState.CLOSED },
       [Event.onDisconnection]) := by
  unfold WSServer.handleSocketClose
  simp [hc]

/-- State projections of the tail of `close`. -/
theorem closeFinish_state (p : WSState × List Event) :
    (WSServer.closeFinish p).1.adopted = p.1.adopted ∧
    (p.1.connection = none →
      (WSServer.closeFinish p).1.sockets = p.1.sockets) ∧
    (∀ c, p.1.connection = some c →
      (WSServer.closeFinish p).1.sockets = setSock p.1.sockets c ReadyState.CLOSING) := by
  obtain ⟨⟨socks, adop, conn, pend, sc, cnow⟩, evts⟩ := p
  cases conn with
  | none =>
      refine ⟨rfl, ⟨fun _ => rfl, fun c hc => ?_⟩⟩
      cases hc
  | some ws =>
      refine ⟨rfl, ⟨fun hc => ?_, fun c hc => ?_⟩⟩
      · cases hc
      · injection hc with hc
        subst hc
        rfl

/-- `ConnInv` holds initially. -/
theorem connInv_init : ConnInv initState :=
  ⟨fun a ha => absurd ha (List.not_mem_nil a),
   fun a ha => absurd ha (List.not_mem_nil a)⟩

/-- `ConnInv` is preserved by every event-loop turn. -/
theorem connInv_step (st st' : WSState) (h : WStep st st') (hinv : ConnInv st) :
    ConnInv st' := by
  cases h with
  | newSock ws hws =>
      refine ⟨fun a ha => ?_, fun a ha hopen => ?_⟩
      · have h1 := hinv.1 a ha
        show (sockLookup (st.sockets ++ [(ws, ReadyState.OPEN)]) a).isSome = true
        rw [sockLookup_append]
        cases hl : sockLookup st.sockets a with
        | none => rw [hl] at h1; cases h1
        | some v => rfl
      · have h1 := hinv.1 a ha
        have hopen' : sockLookup (st.sockets ++ [(ws, ReadyState.OPEN)]) a
            = some ReadyState.OPEN := hopen
        rw [sockLookup_append] at hopen'
        cases hl : sockLookup st.sockets a with
        | none => rw [hl] at h1; cases h1
        | some v =>
            rw [hl] at hopen'
            have hv : some v = some ReadyState.OPEN := hopen'
            exact hinv.2 a ha (hl.trans hv)
  | beginClose ws hws =>
      refine ⟨fun a ha => ?_, fun a ha hopen => ?_⟩
      · show (sockLookup (setSock st.sockets ws ReadyState.CLOSING) a).isSome = true
        rw [sockLookup_setSock]
        by_cases haw : a = ws
        · rw [if_pos haw, hws]
          rfl
        · rw [if_neg haw]
          exact hinv.1 a ha
      · have hopen' : sockLookup (setSock st.sockets ws ReadyState.CLOSING) a
            = some ReadyState.OPEN := hopen
        rw [sockLookup_setSock] at hopen'
        by_cases haw : a = ws
        · rw [if_pos haw, hws] at hopen'
          simp at hopen'
        · rw [if_neg haw] at hopen'
          exact hinv.2 a ha hopen'
  | accept ws hopen hfresh =>
      cases hc : st.connection with
      | some old =>
          by_cases hl : sockLookup st.sockets old = some ReadyState.OPEN
          · rw [handleConnection_eq_live st ws old hc hl]
            refine ⟨fun a ha => ?_, fun a ha hao => ?_⟩
            · have ha' : a ∈ ws :: st.adopted := ha
              show (sockLookup (setSock st.sockets old ReadyState.CLOSING) a).isSome
                  = true
              rw [sockLookup_setSock]
              by_cases haw : a = old
              · rw [if_pos haw, hl]
                rfl
              · rw [if_neg haw]
                rcases List.mem_cons.mp ha' with rfl | hmem
                · rw [hopen]; rfl
                · exact hinv.1 a hmem
            · have ha' : a ∈ ws :: st.adopted := ha
              rcases List.mem_cons.mp ha' with rfl | hmem
              · rfl
              · exfalso
                have hao' : sockLookup (setSock st.sockets old ReadyState.CLOSING) a
                    = some ReadyState.OPEN := hao
                rw [sockLookup_setSock] at hao'
                by_cases haw : a = old
                · rw [if_pos haw, hl] at hao'
                  simp at hao'
                · rw [if_neg haw] at hao'
                  have h2 := hinv.2 a hmem hao'
                  rw [hc] at h2
                  injection h2 with h2
                  exact haw h2.symm
          · rw [handleConnection_eq_stale st ws old hc hl]
            refine ⟨fun a ha => ?_, fun a ha hao => ?_⟩
            · have ha' : a ∈ ws :: st.adopted := ha
              show (sockLookup st.sockets a).isSome = true
              rcases List.mem_cons.mp ha' with rfl | hmem
              · rw [hopen]; rfl
              · exact hinv.1 a hmem
            · have ha' : a ∈ ws :: st.adopted := ha
              rcases List.mem_cons.mp ha' with rfl | hmem
              · rfl
              · exfalso
                have hao' : sockLookup st.sockets a = some ReadyState.OPEN := hao
                have h2 := hinv.2 a hmem hao'
                rw [hc] at h2
                injection h2 with h2
                refine hl ?_
                rw [h2]
                exact hao'
      | none =>
          rw [handleConnection_eq_none st ws hc]
          refine ⟨fun a ha => ?_, fun a ha hao => ?_⟩
          · have ha' : a ∈ ws :: st.adopted := ha
            show (sockLookup st.sockets a).isSome = true
            rcases List.mem_cons.mp ha' with rfl | hmem
            · rw [hopen]; rfl
            · exact hinv.1 a hmem
          · have ha' : a ∈ ws :: st.adopted := ha
            rcases List.mem_cons.mp ha' with rfl | hmem
            · rfl
            · exfalso
              have hao' : sockLookup st.sockets a = some ReadyState.OPEN := hao
              have h2 := hinv.2 a hmem hao'
              rw [hc] at h2
              cases h2
  | message d =>
      have hf := handleMessage_frame st d
      exact connInv_of_frame st _ hf.1 hf.2.1 hf.2.2.1 hinv
  | closeEvt ws hws =>
      by_cases hc : st.connection = some ws
      · rw [handleSocketClose_eq_cur st ws hc]
        refine ⟨fun a ha => ?_, fun a ha hao => ?_⟩
        · have ha' : a ∈ st.adopted := ha
          show (sockLookup (setSock st.sockets ws ReadyState.CLOSED) a).isSome = true
          rw [sockLookup_setSock]
          by_cases haw : a = ws
          · rw [if_pos haw]
            have h1 := hinv.1 ws hws
            cases hl : sockLookup st.sockets ws with
            | none => rw [hl] at h1; cases h1
            | some v => rfl
          · rw [if_neg haw]
            exact hinv.1 a ha'
        · exfalso
          have ha' : a ∈ st.adopted := ha
          have hao' : sockLookup (setSock st.sockets ws ReadyState.CLOSED) a
              = some ReadyState.OPEN := hao
          rw [sockLookup_setSock] at hao'
          by_cases haw : a = ws
          · rw [if_pos haw] at hao'
            cases hl : sockLookup st.sockets ws with
            | none => rw [hl] at hao'; cases hao'
            | some v => rw [hl] at hao'; simp at hao'
          · rw [if_neg haw] at hao'
            have h2 := hinv.2 a ha' hao'
            rw [hc] at h2
            injection h2 with h2
            exact haw h2.symm
      · rw [handleSocketClose_eq_other st ws hc]
        refine ⟨fun a ha => ?_, fun a ha hao => ?_⟩
        · have ha' : a ∈ st.adopted := ha
          show (sockLookup (setSock st.sockets ws ReadyState.CLOSED) a).isSome = true
          rw [sockLookup_setSock]
          by_cases haw : a = ws
          · rw [if_pos haw]
            have h1 := hinv.1 ws hws
            cases hl : sockLookup st.sockets ws with
            | none => rw [hl] at h1; cases h1
            | some v => rfl
          · rw [if_neg haw]
            exact hinv.1 a ha'
        · have ha' : a ∈ st.adopted := ha
          have hao' : sockLookup (setSock st.sockets ws ReadyState.CLOSED) a
              = some ReadyState.OPEN := hao
          rw [sockLookup_setSock] at hao'
          by_cases haw : a = ws
          · exfalso
            rw [if_pos haw] at hao'
            cases hl : sockLookup st.sockets ws with
            | none => rw [hl] at hao'; cases hao'
            | some v => rw [hl] at hao'; simp at hao'
          · rw [if_neg haw] at hao'
            exact hinv.2 a ha' hao'
  | sendMsg m =>
      have hf := send_frame st m
      exact connInv_of_frame st _ hf.1 hf.2.1 hf.2.2.1 hinv
  | timerFire e he hd =>
      have hf := fireTimeout_frame st e.id
      exact connInv_of_frame st _ hf.1 hf.2.1 hf.2.2.1 hinv
  | advance t => exact hinv
  | serverClose drain =>
      have hdr : ∀ q : WSState × List Event,
          q.1.sockets = st.sockets → q.1.adopted = st.adopted →
          q.1.connection = st.connection → ConnInv (WSServer.closeFinish q).1 := by
        intro q hqs hqa hqc
        have hcs := closeFinish_state q
        have hcf := closeFinish_spec q
        refine ⟨fun a ha => ?_, fun a ha hao => ?_⟩
        · rw [hcs.1, hqa] at ha
          cases hcq : q.1.connection with
          | none =>
              rw [hcs.2.1 hcq, hqs]
              exact hinv.1 a ha
          | some c =>
              rw [hcs.2.2 c hcq, hqs, sockLookup_setSock]
              by_cases hac : a = c
              · rw [if_pos hac]
                have h1 := hinv.1 a ha
                rw [hac] at h1
                cases hl : sockLookup st.sockets c with
                | none => rw [hl] at h1; cases h1
                | some v => rfl
              · rw [if_neg hac]
                exact hinv.1 a ha
        · exfalso
          rw [hcs.1, hqa] at ha
          cases hcq : q.1.connection with
          | none =>
              rw [hcs.2.1 hcq, hqs] at hao
              have h2 := hinv.2 a ha hao
              rw [← hqc, hcq] at h2
              cases h2
          | some c =>
              rw [hcs.2.2 c hcq, hqs, sockLookup_setSock] at hao
              by_cases hac : a = c
              · rw [if_pos hac] at hao
                cases hl : sockLookup st.sockets c with
                | none => rw [hl] at hao; cases hao
                | some v => rw [hl] at hao; simp at hao
              · rw [if_neg hac] at hao
                have h2 := hinv.2 a ha hao
                rw [← hqc, hcq] at h2
                injection h2 with h2
                exact hac h2.symm
      unfold WSServer.close
      by_cases hemp : st.pending.isEmpty
      · rw [if_pos hemp]
        exact hdr (st, []) rfl rfl rfl
      · rw [if_neg hemp]
        have hframe := processDrain_frame (st.now + WSServer.CLOSE_GRACE_MS) st drain
        exact hdr _ hframe.1 hframe.2.1 hframe.2.2.1


/-- Every reachable state satisfies the invariant. -/
theorem reachable_connInv (st : WSState) (h : Reachable st) : ConnInv st := by
  induction h with
  | refl => exact connInv_init
  | tail hab hbc ih => exact connInv_step _ _ hbc ih

/-- C3: when a new socket is accepted while the current peer is live, the
handler closes the old peer strictly before firing the attach callback for
the new one (and the old socket leaves the OPEN state); and in every
reachable state at most one adopted socket is OPEN — there is never a
moment with two live peer connections. -/
theorem connection_exclusivity (st : WSState) (hreach : Reachable st) :
    (∀ ws old, st.connection = some old →
        sockLookup st.sockets old = some ReadyState.OPEN →
        (WSServer.handleConnection st ws).2 =
          [Event.closeSocket old, Event.onConnection ws] ∧
        sockLookup (WSServer.handleConnection st ws).1.sockets old
            = some ReadyState.CLOSING ∧
        (WSServer.handleConnection st ws).1.connection = some ws) ∧
    (∀ a ∈ st.adopted, ∀ b ∈ st.adopted,
        sockLookup st.sockets a = some ReadyState.OPEN →
        sockLookup st.sockets b = some ReadyState.OPEN → a = b) := by
  constructor
  · intro ws old hc hl
    rw [handleConnection_eq_live st ws old hc hl]
    refine ⟨rfl, ?_, rfl⟩
    rw [show ({ st with
        sockets := setSock st.sockets old ReadyState.CLOSING,
        adopted := ws :: st.adopted,
        connection := some ws } : WSState).sockets =
      setSock st.sockets old ReadyState.CLOSING from rfl,
      sockLookup_setSock, if_pos rfl, hl]
    rfl
  · intro a ha b hb hao hbo
    have hinv := reachable_connInv st hreach
    have h1 := hinv.2 a ha hao
    have h2 := hinv.2 b hb hbo
    rw [h1] at h2
    injection h2

/-- Witness for C3 at the reachable one-peer state. -/
theorem connection_exclusivity_witness :
    Reachable openSockState ∧
    (∀ a ∈ openSockState.adopted, ∀ b ∈ openSockState.adopted,
        sockLookup openSockState.sockets a = some ReadyState.OPEN →
        sockLookup openSockState.sockets b = some ReadyState.OPEN → a = b) :=
  ⟨openSockState_reachable,
   (connection_exclusivity openSockState openSockState_reachable).2⟩

end Theorems

end BrowserMCP
